import Mathlib

/-!
Verification of the Nosana Node data coordinator
(custom_components/nosana_node/coordinator.py).

The development shallowly embeds the coordinator logic: Python/JSON values
become the inductive type JVal, Python dicts become insertion-ordered
association lists, Python ints become Int, Python floats are idealized as
rationals, byte strings become lists of naturals, and each fallible HTTP
fetch becomes an Option (or a small outcome type) consumed by the pure
cycle function. Wall-clock readings (datetime.utcnow and the ISO last-seen
stamp) are passed in as explicit parameters.
-/

namespace NosanaNode

/-- Shallow model of a Python/JSON value as the coordinator sees one.
Floats are idealized as rationals. -/
inductive JVal where
  | null
  | bool (b : Bool)
  | int (n : Int)
  | rat (q : ℚ)
  | str (s : String)
  | arr (xs : List JVal)
  | obj (kvs : List (String × JVal))

/-- Python truthiness of a JSON value (None, False, 0, 0.0, empty string,
empty list and empty dict are falsy). -/
def JVal.truthy : JVal → Bool
  | .null => false
  | .bool b => b
  | .int n => decide (n ≠ 0)
  | .rat q => decide (q ≠ 0)
  | .str s => decide (s ≠ "")
  | .arr xs => !xs.isEmpty
  | .obj kvs => !kvs.isEmpty

def JVal.isObj : JVal → Bool
  | .obj _ => true
  | _ => false

def JVal.isStr : JVal → Bool
  | .str _ => true
  | _ => false

mutual

/-- Structural equality of JSON values, modelling the Python == used to
compare an address field of a market record with the queried address. -/
def JVal.beq : JVal → JVal → Bool
  | .null, .null => true
  | .bool a, .bool b => a == b
  | .int a, .int b => a == b
  | .rat a, .rat b => a == b
  | .str a, .str b => a == b
  | .arr as, .arr bs => JVal.beqArr as bs
  | .obj as, .obj bs => JVal.beqObj as bs
  | _, _ => false

def JVal.beqArr : List JVal → List JVal → Bool
  | [], [] => true
  | a :: as, b :: bs => JVal.beq a b && JVal.beqArr as bs
  | _, _ => false

def JVal.beqObj : List (String × JVal) → List (String × JVal) → Bool
  | [], [] => true
  | (k1, v1) :: as, (k2, v2) :: bs => k1 == k2 && JVal.beq v1 v2 && JVal.beqObj as bs
  | _, _ => false

end

/-- Python or: the first operand when truthy, otherwise the second. -/
def pyOr (a b : JVal) : JVal := if a.truthy then a else b

/-- Lookup in a Python dict modelled as an insertion-ordered association
list; none when the key is absent. -/
def dictGet (kvs : List (String × JVal)) (k : String) : Option JVal :=
  (kvs.find? (fun p => p.1 == k)).map (fun p => p.2)

/-- Python dict.get with its default of None. -/
def objGet (kvs : List (String × JVal)) (k : String) : JVal :=
  (dictGet kvs k).getD .null

/-- Python dict.get applied through a value that may not be a dict. -/
def jGet (v : JVal) (k : String) : JVal :=
  match v with
  | .obj kvs => objGet kvs k
  | _ => .null

def hasKey (kvs : List (String × JVal)) (k : String) : Bool :=
  kvs.any (fun p => p.1 == k)

/-- Python dict assignment: overwrite in place when the key is present
(dicts keep insertion order), append otherwise. -/
def dictSet (kvs : List (String × JVal)) (k : String) (v : JVal) :
    List (String × JVal) :=
  match kvs with
  | [] => [(k, v)]
  | (k1, v1) :: rest =>
      if k1 == k then (k, v) :: rest else (k1, v1) :: dictSet rest k v

/-! Status normalizer, coordinator.py lines 171 to 200. -/

/-- ASCII uppercase of a string, modelling the Python upper() call on the
ASCII status vocabulary. -/
def strUpper (s : String) : String := String.mk (s.data.map Char.toUpper)

/-- The status mapping chain of coordinator.py lines 177 to 188, applied to
a raw state string. -/
def classifyState (s : String) : String :=
  let u := strUpper s
  if u = "OTHER" then "Running"
  else if u = "QUEUED" then "Queued"
  else if u = "RUNNING" ∨ u = "ONLINE" then "Running"
  else if u = "OFFLINE" ∨ u = "STOPPED" ∨ u = "ERROR" then "Offline"
  else "Running"

/-- Raw state lookup chain: info.get state or info.get status or
info.get nodeStatus, with Python or semantics. -/
def rawStateOf (info : JVal) : JVal :=
  pyOr (jGet info "state") (pyOr (jGet info "status") (jGet info "nodeStatus"))

/-- The raw state variable after lines 173 to 175: set only when the fetch
succeeded and the body is a dict, otherwise left as None. -/
def rawState (infoR : Option JVal) : JVal :=
  match infoR with
  | some body => if body.isObj then rawStateOf body else .null
  | none => .null

/-- Normalized status, lines 172 to 194. The argument is some body when the
info endpoint returned HTTP 200 with a parsed JSON body, none when the fetch
failed in any way (connection error, non-200 status, malformed body). -/
def normStatus (infoR : Option JVal) : String :=
  match infoR with
  | some body =>
      if body.isObj then
        match rawStateOf body with
        | .str s => classifyState s
        | _ => "Running"
      else "Offline"
  | none => "Offline"

/-- The three status keys written into an empty info dict when the info
fetch failed. -/
def offlineInfoKvs : List (String × JVal) :=
  [("status", .str "Offline"), ("nodeStatus", .str "Offline"),
   ("state", .str "Offline")]

/-- The merged info dict after lines 196 to 200 (status, nodeStatus and
state keys forced present), paired with the normalized status. -/
def infoSection (infoR : Option JVal) : List (String × JVal) × String :=
  let norm := normStatus infoR
  let base : List (String × JVal) :=
    match infoR with
    | some (.obj kvs) => kvs
    | _ => []
  let stateVal : JVal :=
    match rawState infoR with
    | .str s => .str s
    | _ => .str norm
  (dictSet (dictSet (dictSet base "status" (.str norm))
      "nodeStatus" (.str norm)) "state" stateVal, norm)

/-! Markets cache, coordinator.py lines 218 to 242. -/

/-- Outcome of one attempt against the markets endpoint: parsed 200 body,
non-200 response, or a raised exception (connection error). -/
inductive MarketsFetch where
  | ok (body : JVal)
  | non200
  | exc

structure MarketsCacheState where
  cache : Option JVal
  last : Option ℚ

/-- Refetch decision of lines 221 to 225: skip the fetch only when a cache
and its timestamp exist and the elapsed seconds are below the TTL of 300. -/
def shouldRefetchMarkets (s : MarketsCacheState) (now : ℚ) : Bool :=
  match s.cache, s.last with
  | some _, some t => !decide (now - t < 300)
  | _, _ => true

/-- Python expression cache or empty list: the cached value when truthy,
otherwise an empty list. -/
def cacheOrEmpty (c : Option JVal) : JVal :=
  match c with
  | some v => if v.truthy then v else .arr []
  | none => .arr []

/-- One markets-cache step, lines 218 to 242: returns the markets value used
this cycle and the new cache state. -/
def marketsStep (s : MarketsCacheState) (now : ℚ) (fetch : MarketsFetch) :
    JVal × MarketsCacheState :=
  if shouldRefetchMarkets s now then
    match fetch with
    | .ok body => (body, ⟨some body, some now⟩)
    | .non200 => (.arr [], ⟨some (.arr []), some now⟩)
    | .exc => (cacheOrEmpty s.cache, s)
  else (cacheOrEmpty s.cache, s)

/-! Base58 encoding, coordinator.py lines 27 to 43. Byte strings are lists
of naturals. -/

def _B58_ALPHABET : String :=
  "123456789ABCDEFGHJKLMNPQRSTUVWXYZabcdefghijkmnopqrstuvwxyz"

/-- Base58 digits of a natural number, least significant first, as produced
by the divmod loop of lines 37 to 40. -/
def b58digits (n : Nat) : List Char :=
  if h : n = 0 then []
  else _B58_ALPHABET.toList.getD (n % 58) '1' :: b58digits (n / 58)
termination_by n
decreasing_by exact Nat.div_lt_self (Nat.pos_of_ne_zero h) (by decide)

/-- Pure base58 encoding of a byte string, lines 30 to 43: big-endian value,
leading zero bytes become leading 1 characters. -/
def _b58encode (data : List Nat) : String :=
  let num := data.foldl (fun a b => a * 256 + b) 0
  let npad := (data.takeWhile (fun b => b == 0)).length
  if num = 0 then String.mk (List.replicate npad '1')
  else String.mk (List.replicate npad '1' ++ (b58digits num).reverse)

/-! Queue-position decoder, coordinator.py lines 60 to 105. -/

/-- Little-endian u32 read of the byte slice raw, from i to i plus 4; like
the Python slice, a read past the end uses only the bytes present. -/
def leU32 (raw : List Nat) (i : Nat) : Nat :=
  ((raw.drop i).take 4).foldr (fun b acc => b + 256 * acc) 0

/-- The length-many 32-byte entries following offset i plus 4, as sliced in
lines 81 to 83. -/
def pubkeysAt (raw : List Nat) (i L : Nat) : List (List Nat) :=
  (List.range L).map (fun j => (raw.drop (i + 4 + 32 * j)).take 32)

/-- One loop iteration of lines 73 to 85: the candidate accepted at offset
i, if any; the length must be positive, at most Lmax, and the entries must
fit in the remaining buffer and each be 32 bytes long. -/
def codeCandAt (raw : List Nat) (i : Nat) : Option (List (List Nat)) :=
  let L := leU32 raw i
  if 1 ≤ L ∧ L ≤ raw.length / 32 + 1 ∧ i + 4 + 32 * L ≤ raw.length then
    let pks := pubkeysAt raw i L
    if pks.all (fun pk => pk.length == 32) then some pks else none
  else none

/-- Candidate pubkey vectors, lines 60 to 86: scan offsets for a u32
little-endian length prefix yielding a plausible count of 32-byte entries
that fit in the remaining buffer. -/
def _extract_pubkey_vec_candidates (raw : List Nat) : List (List (List Nat)) :=
  if raw.isEmpty then []
  else (List.range (max 1 (raw.length - 4))).filterMap (codeCandAt raw)

/-- Stable insertion into a list sorted by descending length; an element
goes before the first entry whose length does not exceed its own. -/
def insertByLenDesc (x : List (List Nat)) :
    List (List (List Nat)) → List (List (List Nat))
  | [] => [x]
  | y :: ys =>
      if y.length ≤ x.length then x :: y :: ys else y :: insertByLenDesc x ys

/-- Stable sort by descending length, the effect of the Python sort with a
length key and reverse set. -/
def sortByLenDesc : List (List (List Nat)) → List (List (List Nat))
  | [] => []
  | x :: xs => insertByLenDesc x (sortByLenDesc xs)

/-- Search loop of lines 98 to 104: base58-encode each entry of a candidate,
return the 1-based index of the target and the candidate length on the first
candidate containing it. -/
def findQueue (target : String) :
    List (List (List Nat)) → Option (Nat × Nat)
  | [] => none
  | c :: rest =>
      let strs := c.map _b58encode
      match strs.findIdx? (fun s => s == target) with
      | some idx => some (idx + 1, strs.length)
      | none => findQueue target rest

/-- Queue position from raw market account bytes, lines 89 to 105. -/
def _get_queue_position_from_market_raw (raw : List Nat) (target : String) :
    Option (Nat × Nat) :=
  let cands := _extract_pubkey_vec_candidates raw
  if cands.isEmpty then none
  else findQueue target (sortByLenDesc cands)

/-- One candidate as the claim words it: a positive 4-byte little-endian
length prefix at offset i followed by that many 32-byte entries fitting
within the remaining buffer. -/
def specCandAt (raw : List Nat) (i : Nat) : Option (List (List Nat)) :=
  let L := leU32 raw i
  if 1 ≤ L ∧ i + 4 + 32 * L ≤ raw.length then some (pubkeysAt raw i L)
  else none

/-- Candidate collection as the claim words it: every offset holding a full
4-byte little-endian length prefix immediately followed by that many 32-byte
entries fitting within the remaining buffer. -/
def pubkeyVecCandidatesSpec (raw : List Nat) : List (List (List Nat)) :=
  (List.range (raw.length - 3)).filterMap (specCandAt raw)

/-- Queue position as the claim words it: collect every candidate, prefer
longer candidates, return the 1-based position and total count from the
first candidate containing the target, and none otherwise. -/
def queuePositionSpec (raw : List Nat) (target : String) : Option (Nat × Nat) :=
  findQueue target (sortByLenDesc (pubkeyVecCandidatesSpec raw))

/-! Market resolver, coordinator.py lines 244 to 288. -/

/-- Candidate key names for the address field of a market record, in the
fixed priority order of line 264. -/
def marketKeyNames : List String :=
  ["address", "marketAddress", "market_address", "id"]

/-- Whether a market record matches the queried address under one of the
candidate key names. -/
def marketMatches (m : List (String × JVal)) (addr : JVal) : Bool :=
  marketKeyNames.any (fun k => JVal.beq (objGet m k) addr)

/-- Name extraction chain of line 267. -/
def extractedName (m : List (String × JVal)) : JVal :=
  pyOr (objGet m "name") (pyOr (objGet m "marketName") (objGet m "title"))

/-- Type extraction chain of line 269. -/
def extractedType (m : List (String × JVal)) : JVal :=
  pyOr (objGet m "type") (pyOr (objGet m "marketType") (objGet m "category"))

/-- Slug extraction chain of line 271. -/
def extractedSlug (m : List (String × JVal)) : JVal :=
  pyOr (objGet m "slug") (objGet m "marketSlug")

/-- Reward-per-second extraction chain of lines 273 to 278. -/
def extractedNos (m : List (String × JVal)) : JVal :=
  pyOr (objGet m "nos_reward_per_second") (pyOr (objGet m "nosRewardPerSecond")
    (pyOr (objGet m "rewardPerSecond") (objGet m "reward_per_second")))

/-- Reward-per-hour extraction chain of lines 279 to 285. -/
def extractedUsd (m : List (String × JVal)) : JVal :=
  pyOr (objGet m "usd_reward_per_hour") (pyOr (objGet m "usdRewardPerHour")
    (pyOr (objGet m "rewardPerHourUsd") (pyOr (objGet m "rewardPerHour")
      (objGet m "reward_per_hour_usd"))))

/-- The assignments of lines 266 to 285 applied to the current market dict:
every display field is overwritten from the matched record. -/
def extractMarket (cur : List (String × JVal)) (m : List (String × JVal)) :
    List (String × JVal) :=
  dictSet (dictSet (dictSet (dictSet (dictSet cur
    "name" (extractedName m))
    "type" (extractedType m))
    "slug" (extractedSlug m))
    "nos_reward_per_second" (extractedNos m))
    "usd_reward_per_hour" (extractedUsd m)

/-- The market dict as initialized at lines 251 to 257; note it has no slug
key. -/
def marketBase (addr : JVal) : List (String × JVal) :=
  [("address", addr), ("name", .null), ("type", .null),
   ("nos_reward_per_second", .null), ("usd_reward_per_hour", .null)]

/-- The scan loop of lines 260 to 288: non-dict records are skipped, a
matching record overwrites the display fields, and the loop stops once the
current name field is truthy. -/
def resolveLoop (addr : JVal) (cur : List (String × JVal)) :
    List JVal → List (String × JVal)
  | [] => cur
  | m :: rest =>
      match m with
      | .obj kvs =>
          let cur2 := if marketMatches kvs addr then extractMarket cur kvs else cur
          if (objGet cur2 "name").truthy then cur2 else resolveLoop addr cur2 rest
      | _ => resolveLoop addr cur rest

/-- Market resolution, lines 251 to 288: scan only when the queried address
is truthy and the markets value is a list. -/
def resolveMarket (addr : JVal) (markets : JVal) : List (String × JVal) :=
  match markets with
  | .arr ms => if addr.truthy then resolveLoop addr (marketBase addr) ms
               else marketBase addr
  | _ => marketBase addr

/-- Record chosen by the scan, worded from the amended claim: each match
overwrites, and scanning stops at the first matching record whose extracted
name is truthy; so the supplier is the first matching record with a truthy
name, else the last matching record, else the accumulator. -/
def chooseFrom (k0 : Option (List (String × JVal))) (addr : JVal) :
    List JVal → Option (List (String × JVal))
  | [] => k0
  | m :: rest =>
      match m with
      | .obj kvs =>
          if marketMatches kvs addr then
            if (extractedName kvs).truthy then some kvs
            else chooseFrom (some kvs) addr rest
          else chooseFrom k0 addr rest
      | _ => chooseFrom k0 addr rest

/-- The record whose fields the resolver ends up exposing, if any. -/
def chosenRecord (addr : JVal) (ms : List JVal) :
    Option (List (String × JVal)) :=
  chooseFrom none addr ms

/-- Market dict resulting from an optional supplier record. -/
def applyChosen (addr : JVal) (k0 : Option (List (String × JVal))) :
    List (String × JVal) :=
  match k0 with
  | some kvs => extractMarket (marketBase addr) kvs
  | none => marketBase addr

/-- Resolution as claim C6 words it: the first matching record alone
supplies the display fields. -/
def resolveMarketFirstOnly (addr : JVal) (markets : JVal) :
    List (String × JVal) :=
  match markets with
  | .arr ms =>
      if addr.truthy then
        match ms.filterMap (fun m => match m with
          | .obj kvs => if marketMatches kvs addr then some kvs else none
          | _ => none) with
        | kvs :: _ => extractMarket (marketBase addr) kvs
        | [] => marketBase addr
      else marketBase addr
  | _ => marketBase addr

/-! Job ledger, coordinator.py lines 332 to 501. -/

/-- Benchmark result extracted from a job, lines 379 to 404: a model id and
a mean tokens-per-second value. -/
structure Bench where
  model_id : String
  tokens_per_second_mean : ℚ
deriving DecidableEq

/-- Typed view of one fetched job record. The id field holds the jid
computed at line 410 (str of the raw id), none when the raw id is absent or
the string None; idInt holds the int coercion stored at line 426; bench
holds the pure result of the llm benchmark extraction of lines 379 to 404,
which depends only on the job body. -/
structure Job where
  id : Option String
  idInt : Int
  timeStart : Int
  timeEnd : Int
  usdRewardPerHour : ℚ
  state : JVal
  bench : Option Bench

/-- One persisted ledger record, the dict built at lines 425 to 435. -/
structure JobRec where
  id : Int
  timeStart : Int
  timeEnd : Int
  usdRewardPerHour : ℚ
  runtime_seconds : Int
  earned_usd : ℚ
  state : JVal
  finalized : Bool
  last_seen : String
  benchmark : Option Bench

/-- The per-node jobs store: a Python dict from jid to record, modelled as
an insertion-ordered association list. -/
abbrev Store := List (String × JobRec)

def storeGet (st : Store) (k : String) : Option JobRec :=
  (st.find? (fun p => p.1 == k)).map (fun p => p.2)

/-- Python dict assignment on the store: overwrite in place, else append. -/
def storeSet (st : Store) (k : String) (v : JobRec) : Store :=
  match st with
  | [] => [(k, v)]
  | (k1, v1) :: rest =>
      if k1 == k then (k, v) :: rest else (k1, v1) :: storeSet rest k v

/-- The compute helper of lines 368 to 377: zero unless the job is
finalized with consistent timestamps, else runtime and earned amount. -/
def _compute (j : Job) : Int × ℚ :=
  if j.timeStart ≤ 0 ∨ j.timeEnd ≤ 0 ∨ j.timeEnd < j.timeStart then (0, 0)
  else
    let runtime := max 0 (j.timeEnd - j.timeStart)
    (runtime, ((runtime : ℚ) / 3600) * j.usdRewardPerHour)

/-- The store mutation decided for one job, lines 418 to 460: some v when a
record is inserted or updated at the jid, none when the store entry is left
untouched. -/
def recNew (nowIso : String) (j : Job) (prev : Option JobRec) : Option JobRec :=
  let runtime := (_compute j).1
  let earned := (_compute j).2
  let fin : Bool := decide (0 < j.timeEnd)
  let bench : Option Bench := if 0 < j.timeEnd then j.bench else none
  match prev with
  | none =>
      some { id := j.idInt
             timeStart := j.timeStart
             timeEnd := j.timeEnd
             usdRewardPerHour := j.usdRewardPerHour
             runtime_seconds := runtime
             earned_usd := earned
             state := j.state
             finalized := fin
             last_seen := nowIso
             benchmark := bench }
  | some p =>
      if 0 < j.timeEnd ∧ (p.finalized = false ∨ p.timeEnd ≠ j.timeEnd) then
        some { p with
               timeEnd := j.timeEnd
               runtime_seconds := runtime
               earned_usd := earned
               finalized := true
               usdRewardPerHour := j.usdRewardPerHour
               last_seen := nowIso
               benchmark := match bench with
                            | some b => some b
                            | none => p.benchmark }
      else if bench.isSome ∧ p.benchmark = none then
        some { p with
               benchmark := bench
               last_seen := nowIso }
      else none

/-- Store effect of one iteration of the job loop, lines 409 to 460: skip
jobs without a jid or without a positive start time, else apply the decided
mutation at the jid. -/
def storeStep (nowIso : String) (st : Store) (j : Job) : Store :=
  match j.id with
  | none => st
  | some jid =>
      if j.timeStart ≤ 0 then st
      else
        match recNew nowIso j (storeGet st jid) with
        | some v => storeSet st jid v
        | none => st

/-- The whole job loop restricted to its store effect. -/
def updateLedger (nowIso : String) (st : Store) (jobs : List Job) : Store :=
  jobs.foldl (storeStep nowIso) st

/-- Loop state of lines 406 to 467: the store plus the tracking of the
latest benchmark by end time. -/
structure LoopState where
  store : Store
  latestBench : Option Bench
  latestTime : Int

/-- One full iteration of the job loop including the benchmark tracking of
lines 462 to 467. -/
def jobStep (nowIso : String) (s : LoopState) (j : Job) : LoopState :=
  match j.id with
  | none => s
  | some _ =>
      if j.timeStart ≤ 0 then s
      else
        let store2 := storeStep nowIso s.store j
        if 0 < j.timeEnd then
          match j.bench with
          | some b =>
              if s.latestTime < j.timeEnd then ⟨store2, some b, j.timeEnd⟩
              else ⟨store2, s.latestBench, s.latestTime⟩
          | none => ⟨store2, s.latestBench, s.latestTime⟩
        else ⟨store2, s.latestBench, s.latestTime⟩

/-- Totals loop filter of lines 478 to 481 and 313 to 316: runtime seconds
summed over records whose stored end time is positive. -/
def sumSeconds (st : Store) : Int :=
  st.foldl (fun acc p => if 0 < p.2.timeEnd then acc + p.2.runtime_seconds else acc) 0

/-- Earned amounts summed over records whose stored end time is positive. -/
def sumUsd (st : Store) : ℚ :=
  st.foldl (fun acc p => if 0 < p.2.timeEnd then acc + p.2.earned_usd else acc) 0

/-- Runtime seconds summed over records whose finalized flag is set, the
wording of the claimed invariant. -/
def sumSecondsFin (st : Store) : Int :=
  st.foldl (fun acc p => if p.2.finalized = true then acc + p.2.runtime_seconds else acc) 0

/-- Earned amounts summed over records whose finalized flag is set. -/
def sumUsdFin (st : Store) : ℚ :=
  st.foldl (fun acc p => if p.2.finalized = true then acc + p.2.earned_usd else acc) 0

/-- Round half to even, the Python round semantics idealized on exact
rationals. -/
def roundHalfEven (q : ℚ) : Int :=
  let f := Rat.floor q
  let r := q - f
  if r < 1/2 then f
  else if r > 1/2 then f + 1
  else if f % 2 = 0 then f else f + 1

/-- Python round to six decimal places on the idealized rational total. -/
def round6 (q : ℚ) : ℚ := (roundHalfEven (q * 1000000) : ℚ) / 1000000

def benchKvs (b : Bench) : List (String × JVal) :=
  [("model_id", .str b.model_id),
   ("tokens_per_second_mean", .rat b.tokens_per_second_mean)]

/-- The jobs-and-earnings update of lines 332 to 501 restricted to its pure
content: fold the job loop over the loaded store, then build the earnings
dict; returns the earnings dict and the resulting store. -/
def updateJobsAndEarnings (nowIso : String) (store0 : Store) (jobs : List Job) :
    List (String × JVal) × Store :=
  let fin := jobs.foldl (jobStep nowIso) ⟨store0, none, 0⟩
  let st1 := fin.store
  let benchOut : List (String × JVal) :=
    match fin.latestBench with
    | some b => benchKvs b
    | none =>
        match st1.findSome? (fun p => p.2.benchmark) with
        | some b => benchKvs b
        | none => []
  ([("usd_total", .rat (round6 (sumUsd st1))),
    ("seconds_total", .int (sumSeconds st1)),
    ("jobs_tracked", .int (st1.length : Int)),
    ("benchmark", .obj benchOut)], st1)

/-- The no-fetch branch of lines 304 to 321: recompute totals from the
persisted store; note the earnings dict built here has no benchmark key. -/
def recomputeEarnings (store0 : Store) : List (String × JVal) :=
  [("usd_total", .rat (round6 (sumUsd store0))),
   ("seconds_total", .int (sumSeconds store0)),
   ("jobs_tracked", .int (store0.length : Int))]

/-! Coordinator cycle, coordinator.py lines 140 to 330. -/

/-- Coordinator state carried between cycles. -/
structure CoordState where
  marketsCache : Option JVal
  marketsLast : Option ℚ
  jobsLast : Option ℚ
  lastStatus : Option String

/-- Inputs of one cycle. infoR and specsR are some parsed body exactly when
the fetch returned HTTP 200 with a parsed JSON body; jobsR is the typed jobs
array when the jobs endpoint returned a dict with a jobs list, none
otherwise; storeR is the jobs mapping loaded from the persisted store, empty
on any load failure; now is the utcnow reading and nowIso the ISO stamp used
for last-seen fields. -/
structure CycleInput where
  infoR : Option JVal
  specsR : Option JVal
  marketsR : MarketsFetch
  jobsR : Option (List Job)
  storeR : Store
  now : ℚ
  nowIso : String

/-- The markets value used by the cycle. -/
def marketsUsed (st : CoordState) (inp : CycleInput) : JVal :=
  (marketsStep ⟨st.marketsCache, st.marketsLast⟩ inp.now inp.marketsR).1

/-- Market address resolution of lines 244 to 249: from specs first, then
from the merged info dict. -/
def marketAddrOf (specsV : JVal) (infoKvs : List (String × JVal)) : JVal :=
  let fromSpecs : JVal :=
    if specsV.isObj then pyOr (jGet specsV "marketAddress") (jGet specsV "market_address")
    else .null
  if fromSpecs.truthy then fromSpecs
  else pyOr (objGet infoKvs "marketAddress") (objGet infoKvs "market_address")

/-- Jobs fetch gating of lines 290 to 299: fetch on a status transition, on
a missing previous fetch time, or on TTL expiry at 900 seconds. -/
def shouldFetchJobs (st : CoordState) (norm : String) (now : ℚ) : Bool :=
  if st.lastStatus ≠ some norm then true
  else
    match st.jobsLast with
    | none => true
    | some t => decide (900 ≤ now - t)

/-- The earnings dict produced by the cycle, lines 301 to 321. -/
def earningsRun (st : CoordState) (inp : CycleInput) (norm : String) :
    List (String × JVal) :=
  if shouldFetchJobs st norm inp.now then
    (updateJobsAndEarnings inp.nowIso inp.storeR (inp.jobsR.getD [])).1
  else recomputeEarnings inp.storeR

/-- One full cycle of _async_update_data restricted to its returned
snapshot, lines 140 to 325: merge the normalized info dict with the specs,
market and earnings sections. -/
def runCycle (st : CoordState) (inp : CycleInput) : List (String × JVal) :=
  let info := infoSection inp.infoR
  let specsV := inp.specsR.getD (.obj [])
  let market := resolveMarket (marketAddrOf specsV info.1) (marketsUsed st inp)
  dictSet (dictSet (dictSet info.1
    "specs" (pyOr specsV (.obj [])))
    "market" (.obj market))
    "earnings" (.obj (earningsRun st inp info.2))

/-- Structural completeness checked by claim C7, restricted to the keys the
code maintains: the three status keys, the three section keys, and the five
always-initialized market fields. -/
def marketComplete (mk : List (String × JVal)) : Bool :=
  hasKey mk "address" && hasKey mk "name" && hasKey mk "type" &&
  hasKey mk "nos_reward_per_second" && hasKey mk "usd_reward_per_hour"

def snapshotComplete (snap : List (String × JVal)) : Bool :=
  hasKey snap "status" && hasKey snap "nodeStatus" && hasKey snap "state" &&
  hasKey snap "specs" && hasKey snap "earnings" &&
  (match dictGet snap "market" with
   | some (.obj mk) => marketComplete mk
   | _ => false)

/-- Structural completeness exactly as claim C7 words it, including the
slug market sub-field. -/
def snapshotCompleteClaim (snap : List (String × JVal)) : Bool :=
  hasKey snap "status" && hasKey snap "nodeStatus" && hasKey snap "state" &&
  hasKey snap "specs" && hasKey snap "earnings" &&
  (match dictGet snap "market" with
   | some (.obj mk) => marketComplete mk && hasKey mk "slug"
   | _ => false)

/-! Helper lemmas about the dict model. -/

theorem dictGet_nil (k : String) : dictGet [] k = none := rfl

theorem dictGet_cons (k1 : String) (v1 : JVal) (rest : List (String × JVal))
    (k : String) :
    dictGet ((k1, v1) :: rest) k = if k1 = k then some v1 else dictGet rest k := by
  by_cases h : k1 = k
  · simp [dictGet, List.find?, h]
  · have hb : (k1 == k) = false := beq_eq_false_iff_ne.mpr h
    simp [dictGet, List.find?, hb, h]

theorem dictSet_cons (k1 : String) (v1 : JVal) (rest : List (String × JVal))
    (k : String) (v : JVal) :
    dictSet ((k1, v1) :: rest) k v =
      if k1 = k then (k, v) :: rest else (k1, v1) :: dictSet rest k v := by
  by_cases h : k1 = k <;> simp [dictSet, h]

theorem hasKey_cons (k1 : String) (v1 : JVal) (rest : List (String × JVal))
    (k : String) :
    hasKey ((k1, v1) :: rest) k = if k1 = k then true else hasKey rest k := by
  by_cases h : k1 = k <;> simp [hasKey, h]

theorem dictGet_dictSet_self (kvs : List (String × JVal)) (k : String) (v : JVal) :
    dictGet (dictSet kvs k v) k = some v := by
  induction kvs with
  | nil => simp [dictSet, dictGet_cons]
  | cons p rest ih =>
      obtain ⟨k1, v1⟩ := p
      rw [dictSet_cons]
      by_cases h : k1 = k
      · simp [h, dictGet_cons]
      · simp [h, dictGet_cons, ih]

theorem dictGet_dictSet_ne (kvs : List (String × JVal)) (k k2 : String) (v : JVal)
    (h : k2 ≠ k) : dictGet (dictSet kvs k v) k2 = dictGet kvs k2 := by
  have hkk : ¬ k = k2 := fun hh => h hh.symm
  induction kvs with
  | nil =>
      rw [show dictSet [] k v = [(k, v)] from rfl, dictGet_cons, dictGet_nil,
        if_neg hkk]
  | cons p rest ih =>
      obtain ⟨k1, v1⟩ := p
      rw [dictSet_cons]
      by_cases h1 : k1 = k
      · subst h1
        rw [if_pos rfl, dictGet_cons, dictGet_cons, if_neg hkk, if_neg hkk]
      · rw [if_neg h1, dictGet_cons, dictGet_cons]
        by_cases h2 : k1 = k2
        · rw [if_pos h2, if_pos h2]
        · rw [if_neg h2, if_neg h2, ih]

theorem hasKey_dictSet_self (kvs : List (String × JVal)) (k : String) (v : JVal) :
    hasKey (dictSet kvs k v) k = true := by
  induction kvs with
  | nil => simp [dictSet, hasKey]
  | cons p rest ih =>
      obtain ⟨k1, v1⟩ := p
      rw [dictSet_cons]
      by_cases h : k1 = k
      · simp [h, hasKey_cons]
      · simp [h, hasKey_cons, ih]

theorem hasKey_dictSet_of (kvs : List (String × JVal)) (k k2 : String) (v : JVal)
    (h : hasKey kvs k2 = true) : hasKey (dictSet kvs k v) k2 = true := by
  induction kvs with
  | nil => simp [hasKey] at h
  | cons p rest ih =>
      obtain ⟨k1, v1⟩ := p
      rw [dictSet_cons]
      rw [hasKey_cons] at h
      by_cases h1 : k1 = k
      · subst h1
        by_cases h2 : k1 = k2
        · rw [if_pos rfl, hasKey_cons, if_pos h2]
        · rw [if_neg h2] at h
          rw [if_pos rfl, hasKey_cons, if_neg h2]
          exact h
      · rw [if_neg h1]
        by_cases h2 : k1 = k2
        · rw [hasKey_cons, if_pos h2]
        · rw [if_neg h2] at h
          rw [hasKey_cons, if_neg h2]
          exact ih h

/-! Claim C1: markets cache on refetch failure. -/

/-- C1 counterexample: with a nonempty cached market list and an expired
TTL, a non-200 refetch does not retain the cache; it replaces it with an
empty list. -/
theorem markets_cache_counterexample :
    (marketsStep ⟨some (.arr [.obj [("address", .str "A")]]), some 0⟩ 301
        .non200).2.cache
      ≠ some (.arr [.obj [("address", .str "A")]]) := by
  have hc : shouldRefetchMarkets
      ⟨some (.arr [.obj [("address", .str "A")]]), some 0⟩ 301 = true := by
    simp only [shouldRefetchMarkets]
    norm_num
  simp [marketsStep, hc]

/-- C1 amended: a refetch that raises a connection error leaves the cache
state unchanged and uses the cached value (empty list when no truthy cache
exists); a non-200 refetch that is due instead installs an empty list as
both the used value and the new cache. -/
theorem markets_cache_retained (s : MarketsCacheState) (now : ℚ) :
    marketsStep s now .exc = (cacheOrEmpty s.cache, s) ∧
    (shouldRefetchMarkets s now = true →
      marketsStep s now .non200 = (.arr [], ⟨some (.arr []), some now⟩)) := by
  constructor
  · unfold marketsStep
    by_cases h : shouldRefetchMarkets s now = true <;> simp [h]
  · intro h
    simp [marketsStep, h]

/-- C1 witness: the amended theorem evaluated at a concrete state. -/
theorem markets_cache_retained_witness :
    marketsStep ⟨none, none⟩ 0 .exc = (.arr [], ⟨none, none⟩) ∧
    marketsStep ⟨none, none⟩ 0 .non200 = (.arr [], ⟨some (.arr []), some 0⟩) :=
  ⟨(markets_cache_retained ⟨none, none⟩ 0).1,
   (markets_cache_retained ⟨none, none⟩ 0).2 rfl⟩

/-! Claim C4: the status normalization table. -/

theorem classifyState_empty : classifyState "" = "Running" := rfl

/-- C4: status normalization maps each upstream status string, compared
case-insensitively, per the table: QUEUED to Queued; OFFLINE, STOPPED and
ERROR to Offline; OTHER, RUNNING, ONLINE and every other string to Running;
and a failed info fetch normalizes to Offline. -/
theorem status_table (s : String) :
    (normStatus (some (.obj [("state", .str s)])) =
      if strUpper s = "QUEUED" then "Queued"
      else if strUpper s = "OFFLINE" ∨ strUpper s = "STOPPED" ∨ strUpper s = "ERROR"
        then "Offline"
      else "Running") ∧
    normStatus none = "Offline" := by
  refine ⟨?_, rfl⟩
  by_cases hs : s = ""
  · subst hs
    rfl
  · have ht : (JVal.str s).truthy = true := by
      simp [JVal.truthy, hs]
    have hraw : rawStateOf (.obj [("state", .str s)]) = .str s := by
      simp [rawStateOf, jGet, objGet, dictGet, List.find?, pyOr, ht]
    simp only [normStatus, JVal.isObj, if_true, hraw]
    unfold classifyState
    generalize strUpper s = u
    by_cases h1 : u = "OTHER" <;> by_cases h2 : u = "QUEUED" <;>
      by_cases h3 : u = "RUNNING" <;> by_cases h4 : u = "ONLINE" <;>
      by_cases h5 : u = "OFFLINE" <;> by_cases h6 : u = "STOPPED" <;>
      by_cases h7 : u = "ERROR" <;> simp_all

/-! Claim C10: a 200 info response with no usable state string. -/

/-- C10: when the info endpoint responds 200 with a JSON object whose
state, status and nodeStatus keys are each absent, the empty string, or not
a string, the normalized status is Running. -/
theorem no_usable_state_running (kvs : List (String × JVal))
    (h : ∀ k ∈ (["state", "status", "nodeStatus"] : List String), ∀ v,
      dictGet kvs k = some v → v = .str "" ∨ v.isStr = false) :
    normStatus (some (.obj kvs)) = "Running" := by
  have key : ∀ k, (∀ v, dictGet kvs k = some v → v = .str "" ∨ v.isStr = false) →
      objGet kvs k = .null ∨ objGet kvs k = .str "" ∨ (objGet kvs k).isStr = false := by
    intro k hk
    cases hd : dictGet kvs k with
    | none => left; simp [objGet, hd]
    | some v =>
        rcases hk v hd with h1 | h1
        · right; left; simp [objGet, hd, h1]
        · right; right; simp [objGet, hd, h1]
  have ha := key "state" (h "state" (by simp))
  have hb := key "status" (h "status" (by simp))
  have hc := key "nodeStatus" (h "nodeStatus" (by simp))
  have final : ∀ (a b c : JVal),
      (a = .null ∨ a = .str "" ∨ a.isStr = false) →
      (b = .null ∨ b = .str "" ∨ b.isStr = false) →
      (c = .null ∨ c = .str "" ∨ c.isStr = false) →
      (match pyOr a (pyOr b c) with
       | .str s => classifyState s
       | _ => "Running") = "Running" := by
    intro a b c ha hb hc
    have one : ∀ (x : JVal), (x = .null ∨ x = .str "" ∨ x.isStr = false) →
        (match x with
         | .str s => classifyState s
         | _ => "Running") = "Running" := by
      intro x hx
      rcases hx with hx | hx | hx
      · subst hx; rfl
      · subst hx; exact classifyState_empty
      · cases x <;> simp_all [JVal.isStr]
    by_cases hat : a.truthy = true
    · simpa [pyOr, hat] using one a ha
    · by_cases hbt : b.truthy = true
      · simp only [Bool.not_eq_true] at hat
        simpa [pyOr, hat, hbt] using one b hb
      · simp only [Bool.not_eq_true] at hat hbt
        simpa [pyOr, hat, hbt] using one c hc
  have hr : rawStateOf (.obj kvs) =
      pyOr (objGet kvs "state") (pyOr (objGet kvs "status") (objGet kvs "nodeStatus")) := rfl
  simp only [normStatus, JVal.isObj, if_true, hr]
  exact final _ _ _ ha hb hc

/-- C10 witness: the theorem evaluated at the empty object. -/
theorem no_usable_state_running_witness :
    normStatus (some (.obj [])) = "Running" :=
  no_usable_state_running [] (by simp [dictGet, List.find?])

/-! Claim C5: the per-job runtime and earnings computation. -/

/-- C5: the computed pair is zero-zero unless timeEnd is positive, timeStart
is positive and timeEnd is at least timeStart, in which case runtime is the
difference and earned is runtime over 3600 times the hourly rate; at the
scenario job with start 100, end 200 and rate 3.6 the pair is 100 seconds
and one tenth of a currency unit. -/
theorem compute_pair (j : Job) :
    (_compute j = if 0 < j.timeStart ∧ 0 < j.timeEnd ∧ j.timeStart ≤ j.timeEnd
        then (j.timeEnd - j.timeStart,
              ((j.timeEnd - j.timeStart : Int) : ℚ) / 3600 * j.usdRewardPerHour)
        else (0, 0)) ∧
    _compute ⟨some "1", 1, 100, 200, 18/5, .null, none⟩ = (100, 1/10) := by
  constructor
  · unfold _compute
    by_cases h : 0 < j.timeStart ∧ 0 < j.timeEnd ∧ j.timeStart ≤ j.timeEnd
    · have h1 : ¬ (j.timeStart ≤ 0 ∨ j.timeEnd ≤ 0 ∨ j.timeEnd < j.timeStart) := by omega
      have h2 : max 0 (j.timeEnd - j.timeStart) = j.timeEnd - j.timeStart := by omega
      simp [h1, h, h2]
    · have h1 : j.timeStart ≤ 0 ∨ j.timeEnd ≤ 0 ∨ j.timeEnd < j.timeStart := by omega
      simp [h1, h]
  · have h1 : ¬ ((100 : Int) ≤ 0 ∨ (200 : Int) ≤ 0 ∨ (200 : Int) < 100) := by norm_num
    simp only [_compute, h1, if_false]
    have hm : ((max 0 (200 - 100 : Int) : Int) : ℚ) = 100 := by norm_num
    rw [Prod.mk.injEq]
    refine ⟨by norm_num, ?_⟩
    rw [hm]
    norm_num

/-! Claim C7: structural completeness of the snapshot. -/

theorem marketComplete_extractMarket (cur m : List (String × JVal))
    (h : marketComplete cur = true) : marketComplete (extractMarket cur m) = true := by
  simp only [marketComplete, Bool.and_eq_true] at h ⊢
  obtain ⟨⟨⟨⟨ha, _⟩, _⟩, _⟩, _⟩ := h
  refine ⟨⟨⟨⟨?_, ?_⟩, ?_⟩, ?_⟩, ?_⟩
  · exact hasKey_dictSet_of _ _ _ _ (hasKey_dictSet_of _ _ _ _
      (hasKey_dictSet_of _ _ _ _ (hasKey_dictSet_of _ _ _ _
        (hasKey_dictSet_of _ _ _ _ ha))))
  · exact hasKey_dictSet_of _ _ _ _ (hasKey_dictSet_of _ _ _ _
      (hasKey_dictSet_of _ _ _ _ (hasKey_dictSet_of _ _ _ _
        (hasKey_dictSet_self _ _ _))))
  · exact hasKey_dictSet_of _ _ _ _ (hasKey_dictSet_of _ _ _ _
      (hasKey_dictSet_of _ _ _ _ (hasKey_dictSet_self _ _ _)))
  · exact hasKey_dictSet_of _ _ _ _ (hasKey_dictSet_self _ _ _)
  · exact hasKey_dictSet_self _ _ _

theorem resolveLoop_complete (addr : JVal) (ms : List JVal) :
    ∀ cur, marketComplete cur = true →
      marketComplete (resolveLoop addr cur ms) = true := by
  induction ms with
  | nil => intro cur h; exact h
  | cons m rest ih =>
      intro cur h
      cases m with
      | obj kvs =>
          simp only [resolveLoop]
          have h2 : marketComplete
              (if marketMatches kvs addr then extractMarket cur kvs else cur) = true := by
            by_cases hm : marketMatches kvs addr = true
            · simp [hm, marketComplete_extractMarket _ _ h]
            · simp only [Bool.not_eq_true] at hm
              simp [hm, h]
          by_cases hname : (objGet
              (if marketMatches kvs addr then extractMarket cur kvs else cur)
              "name").truthy = true
          · simp only [hname, if_true]
            exact h2
          · simp only [Bool.not_eq_true] at hname
            simp only [hname, Bool.false_eq_true, if_false]
            exact ih _ h2
      | null => simp only [resolveLoop]; exact ih cur h
      | bool b => simp only [resolveLoop]; exact ih cur h
      | int n => simp only [resolveLoop]; exact ih cur h
      | rat q => simp only [resolveLoop]; exact ih cur h
      | str s => simp only [resolveLoop]; exact ih cur h
      | arr xs => simp only [resolveLoop]; exact ih cur h

theorem marketComplete_resolveMarket (addr markets : JVal) :
    marketComplete (resolveMarket addr markets) = true := by
  have hbase : marketComplete (marketBase addr) = true := rfl
  cases markets with
  | arr ms =>
      simp only [resolveMarket]
      by_cases h : addr.truthy = true
      · simp only [h, if_true]
        exact resolveLoop_complete addr ms _ hbase
      · simp only [Bool.not_eq_true] at h
        simp only [h, Bool.false_eq_true, if_false]
        exact hbase
  | null => exact hbase
  | bool b => exact hbase
  | int n => exact hbase
  | rat q => exact hbase
  | str s => exact hbase
  | obj kvs => exact hbase

theorem infoSection_keys (infoR : Option JVal) :
    hasKey (infoSection infoR).1 "status" = true ∧
    hasKey (infoSection infoR).1 "nodeStatus" = true ∧
    hasKey (infoSection infoR).1 "state" = true := by
  refine ⟨?_, ?_, ?_⟩
  · exact hasKey_dictSet_of _ _ _ _ (hasKey_dictSet_of _ _ _ _
      (hasKey_dictSet_self _ _ _))
  · exact hasKey_dictSet_of _ _ _ _ (hasKey_dictSet_self _ _ _)
  · exact hasKey_dictSet_self _ _ _

/-- C7 amended: for all coordinator states and cycle inputs, the snapshot
contains the status, nodeStatus and state keys and the specs, market and
earnings sub-records, and the market sub-record contains the address, name,
type and both reward keys. -/
theorem snapshot_complete (st : CoordState) (inp : CycleInput) :
    snapshotComplete (runCycle st inp) = true := by
  obtain ⟨h1, h2, h3⟩ := infoSection_keys inp.infoR
  simp only [runCycle, snapshotComplete, Bool.and_eq_true]
  refine ⟨⟨⟨⟨⟨?_, ?_⟩, ?_⟩, ?_⟩, ?_⟩, ?_⟩
  · exact hasKey_dictSet_of _ _ _ _ (hasKey_dictSet_of _ _ _ _
      (hasKey_dictSet_of _ _ _ _ h1))
  · exact hasKey_dictSet_of _ _ _ _ (hasKey_dictSet_of _ _ _ _
      (hasKey_dictSet_of _ _ _ _ h2))
  · exact hasKey_dictSet_of _ _ _ _ (hasKey_dictSet_of _ _ _ _
      (hasKey_dictSet_of _ _ _ _ h3))
  · exact hasKey_dictSet_of _ _ _ _ (hasKey_dictSet_of _ _ _ _
      (hasKey_dictSet_self _ _ _))
  · exact hasKey_dictSet_self _ _ _
  · rw [dictGet_dictSet_ne _ _ _ _ (show "market" ≠ "earnings" by decide),
      dictGet_dictSet_self]
    exact marketComplete_resolveMarket _ _

/-- C7 counterexample: at a concrete cycle whose market address matches no
record of the market list, the market sub-record of the snapshot has no slug
key at all, so the snapshot is not structurally complete in the claimed
sense. -/
theorem snapshot_complete_counterexample :
    snapshotCompleteClaim (runCycle ⟨none, none, none, none⟩
      ⟨some (.obj []), some (.obj [("marketAddress", .str "A")]), .ok (.arr []),
       none, [], 0, "t"⟩) = false := by decide

/-! Claim C8: an info-fetch failure degrades only the status. -/

/-- C8: when the info fetch fails, the cycle still produces the snapshot,
the three status keys are Offline, and the specs, market and earnings
sections are computed from their own inputs alone. -/
theorem info_failure_graceful (st : CoordState) (inp : CycleInput)
    (h : inp.infoR = none) :
    dictGet (runCycle st inp) "status" = some (.str "Offline") ∧
    dictGet (runCycle st inp) "nodeStatus" = some (.str "Offline") ∧
    dictGet (runCycle st inp) "state" = some (.str "Offline") ∧
    dictGet (runCycle st inp) "specs" =
      some (pyOr (inp.specsR.getD (.obj [])) (.obj [])) ∧
    dictGet (runCycle st inp) "market" =
      some (.obj (resolveMarket
        (marketAddrOf (inp.specsR.getD (.obj [])) offlineInfoKvs)
        (marketsUsed st inp))) ∧
    dictGet (runCycle st inp) "earnings" =
      some (.obj (earningsRun st inp "Offline")) := by
  have hinfo : infoSection inp.infoR = (offlineInfoKvs, "Offline") := by
    rw [h]; rfl
  simp only [runCycle, hinfo]
  refine ⟨?_, ?_, ?_, ?_, ?_, ?_⟩
  · rw [dictGet_dictSet_ne _ _ _ _ (show "status" ≠ "earnings" by decide),
      dictGet_dictSet_ne _ _ _ _ (show "status" ≠ "market" by decide),
      dictGet_dictSet_ne _ _ _ _ (show "status" ≠ "specs" by decide)]
    rfl
  · rw [dictGet_dictSet_ne _ _ _ _ (show "nodeStatus" ≠ "earnings" by decide),
      dictGet_dictSet_ne _ _ _ _ (show "nodeStatus" ≠ "market" by decide),
      dictGet_dictSet_ne _ _ _ _ (show "nodeStatus" ≠ "specs" by decide)]
    rfl
  · rw [dictGet_dictSet_ne _ _ _ _ (show "state" ≠ "earnings" by decide),
      dictGet_dictSet_ne _ _ _ _ (show "state" ≠ "market" by decide),
      dictGet_dictSet_ne _ _ _ _ (show "state" ≠ "specs" by decide)]
    rfl
  · rw [dictGet_dictSet_ne _ _ _ _ (show "specs" ≠ "earnings" by decide),
      dictGet_dictSet_ne _ _ _ _ (show "specs" ≠ "market" by decide),
      dictGet_dictSet_self]
  · rw [dictGet_dictSet_ne _ _ _ _ (show "market" ≠ "earnings" by decide),
      dictGet_dictSet_self]
  · rw [dictGet_dictSet_self]

/-- C8 witness: the theorem evaluated at a concrete failing info fetch. -/
theorem info_failure_graceful_witness :
    dictGet (runCycle ⟨none, none, none, none⟩
      ⟨none, none, .non200, none, [], 0, "t"⟩) "status" = some (.str "Offline") ∧
    dictGet (runCycle ⟨none, none, none, none⟩
      ⟨none, none, .non200, none, [], 0, "t"⟩) "nodeStatus" = some (.str "Offline") ∧
    dictGet (runCycle ⟨none, none, none, none⟩
      ⟨none, none, .non200, none, [], 0, "t"⟩) "state" = some (.str "Offline") ∧
    dictGet (runCycle ⟨none, none, none, none⟩
      ⟨none, none, .non200, none, [], 0, "t"⟩) "specs" =
      some (pyOr ((none : Option JVal).getD (.obj [])) (.obj [])) ∧
    dictGet (runCycle ⟨none, none, none, none⟩
      ⟨none, none, .non200, none, [], 0, "t"⟩) "market" =
      some (.obj (resolveMarket
        (marketAddrOf ((none : Option JVal).getD (.obj [])) offlineInfoKvs)
        (marketsUsed ⟨none, none, none, none⟩ ⟨none, none, .non200, none, [], 0, "t"⟩))) ∧
    dictGet (runCycle ⟨none, none, none, none⟩
      ⟨none, none, .non200, none, [], 0, "t"⟩) "earnings" =
      some (.obj (earningsRun ⟨none, none, none, none⟩
        ⟨none, none, .non200, none, [], 0, "t"⟩ "Offline")) :=
  info_failure_graceful ⟨none, none, none, none⟩ ⟨none, none, .non200, none, [], 0, "t"⟩ rfl

/-! Claim C6: market resolution. -/

theorem extractMarket_overwrite (addr : JVal) (k1 k2 : List (String × JVal)) :
    extractMarket (extractMarket (marketBase addr) k1) k2 =
      extractMarket (marketBase addr) k2 := rfl

theorem name_of_applyChosen (addr : JVal) (k0 : Option (List (String × JVal))) :
    objGet (applyChosen addr k0) "name" =
      match k0 with
      | some kvs => extractedName kvs
      | none => .null := by
  cases k0 <;> rfl

theorem resolveLoop_chosen (addr : JVal) (ms : List JVal) :
    ∀ k0, (objGet (applyChosen addr k0) "name").truthy = false →
      resolveLoop addr (applyChosen addr k0) ms =
        applyChosen addr (chooseFrom k0 addr ms) := by
  induction ms with
  | nil => intro k0 h; rfl
  | cons m rest ih =>
      intro k0 h
      cases m with
      | obj kvs =>
          simp only [resolveLoop, chooseFrom]
          by_cases hm : marketMatches kvs addr = true
          · have hcur : extractMarket (applyChosen addr k0) kvs =
                applyChosen addr (some kvs) := by
              cases k0 with
              | none => rfl
              | some k1 => exact extractMarket_overwrite addr k1 kvs
            simp only [hm, if_true, hcur]
            have hname2 : objGet (applyChosen addr (some kvs)) "name" =
                extractedName kvs := rfl
            by_cases hname : (extractedName kvs).truthy = true
            · simp only [hname2, hname, if_true]
            · simp only [Bool.not_eq_true] at hname
              simp only [hname2, hname, Bool.false_eq_true, if_false]
              exact ih (some kvs) (by rw [name_of_applyChosen]; exact hname)
          · simp only [Bool.not_eq_true] at hm
            simp only [hm, Bool.false_eq_true, if_false, h]
            exact ih k0 h
      | null => simp only [resolveLoop, chooseFrom]; exact ih k0 h
      | bool b => simp only [resolveLoop, chooseFrom]; exact ih k0 h
      | int n => simp only [resolveLoop, chooseFrom]; exact ih k0 h
      | rat q => simp only [resolveLoop, chooseFrom]; exact ih k0 h
      | str s => simp only [resolveLoop, chooseFrom]; exact ih k0 h
      | arr xs => simp only [resolveLoop, chooseFrom]; exact ih k0 h

/-- C6 counterexample: with two records matching the queried address where
only the second carries a name, the resolver returns the name of the second
record, not the fields of the first matching record as the claim states. -/
theorem market_resolution_counterexample :
    resolveMarket (.str "A") (.arr [.obj [("address", .str "A")],
        .obj [("address", .str "A"), ("name", .str "X")]]) ≠
      resolveMarketFirstOnly (.str "A") (.arr [.obj [("address", .str "A")],
        .obj [("address", .str "A"), ("name", .str "X")]]) := by
  intro h
  have h2 : (JVal.str "X") = JVal.null := congrArg (fun d => objGet d "name") h
  exact JVal.noConfusion h2

/-- C6 amended: the resolver scans records in list order, each record
matching under one of the four candidate keys overwrites the display
fields, and the scan stops at the first matching record whose extracted
name is truthy; hence the fields come from the first matching record with a
truthy name, else from the last matching record, and with no match every
initialized field is null except the address, which equals the queried
address. -/
theorem market_resolution (addr : JVal) (ms : List JVal)
    (h : addr.truthy = true) :
    resolveMarket addr (.arr ms) = applyChosen addr (chosenRecord addr ms) ∧
    objGet (resolveMarket addr (.arr ms)) "address" = addr := by
  have h0 : (objGet (applyChosen addr none) "name").truthy = false := rfl
  have main := resolveLoop_chosen addr ms none h0
  have hres : resolveMarket addr (.arr ms) =
      applyChosen addr (chosenRecord addr ms) := by
    simp only [resolveMarket, h, if_true]
    exact main
  refine ⟨hres, ?_⟩
  rw [hres]
  cases chosenRecord addr ms with
  | none => rfl
  | some kvs => rfl

/-- C6 witness: the amended theorem evaluated at a concrete address and an
empty market list. -/
theorem market_resolution_witness :
    resolveMarket (.str "A") (.arr []) =
      applyChosen (.str "A") (chosenRecord (.str "A") []) ∧
    objGet (resolveMarket (.str "A") (.arr [])) "address" = .str "A" :=
  market_resolution (.str "A") [] rfl

/-! Store lemmas for the job ledger. -/

theorem storeGet_nil (k : String) : storeGet [] k = none := rfl

theorem storeGet_cons (k1 : String) (v1 : JobRec) (rest : Store) (k : String) :
    storeGet ((k1, v1) :: rest) k = if k1 = k then some v1 else storeGet rest k := by
  by_cases h : k1 = k
  · simp [storeGet, List.find?, h]
  · have hb : (k1 == k) = false := beq_eq_false_iff_ne.mpr h
    simp [storeGet, List.find?, hb, h]

theorem storeSet_cons (k1 : String) (v1 : JobRec) (rest : Store) (k : String)
    (v : JobRec) :
    storeSet ((k1, v1) :: rest) k v =
      if k1 = k then (k, v) :: rest else (k1, v1) :: storeSet rest k v := by
  by_cases h : k1 = k <;> simp [storeSet, h]

theorem storeGet_set_self (st : Store) (k : String) (v : JobRec) :
    storeGet (storeSet st k v) k = some v := by
  induction st with
  | nil => simp [storeSet, storeGet_cons]
  | cons p rest ih =>
      obtain ⟨k1, v1⟩ := p
      rw [storeSet_cons]
      by_cases h : k1 = k
      · simp [h, storeGet_cons]
      · simp [h, storeGet_cons, ih]

theorem storeGet_set_ne (st : Store) (k k2 : String) (v : JobRec)
    (h : k2 ≠ k) : storeGet (storeSet st k v) k2 = storeGet st k2 := by
  have hkk : ¬ k = k2 := fun hh => h hh.symm
  induction st with
  | nil =>
      rw [show storeSet [] k v = [(k, v)] from rfl, storeGet_cons, storeGet_nil,
        if_neg hkk]
  | cons p rest ih =>
      obtain ⟨k1, v1⟩ := p
      rw [storeSet_cons]
      by_cases h1 : k1 = k
      · subst h1
        rw [if_pos rfl, storeGet_cons, storeGet_cons, if_neg hkk, if_neg hkk]
      · rw [if_neg h1, storeGet_cons, storeGet_cons]
        by_cases h2 : k1 = k2
        · rw [if_pos h2, if_pos h2]
        · rw [if_neg h2, if_neg h2, ih]

theorem mem_storeSet (st : Store) (k : String) (v : JobRec) (p : String × JobRec)
    (h : p ∈ storeSet st k v) : p ∈ st ∨ p = (k, v) := by
  induction st with
  | nil =>
      simp only [show storeSet [] k v = [(k, v)] from rfl, List.mem_singleton] at h
      right; exact h
  | cons q rest ih =>
      obtain ⟨k1, v1⟩ := q
      rw [storeSet_cons] at h
      by_cases h1 : k1 = k
      · rw [if_pos h1] at h
        rcases List.mem_cons.mp h with h2 | h2
        · right; exact h2
        · left; exact List.mem_cons_of_mem _ h2
      · rw [if_neg h1] at h
        rcases List.mem_cons.mp h with h2 | h2
        · left; exact h2 ▸ List.mem_cons_self _ _
        · rcases ih h2 with h3 | h3
          · left; exact List.mem_cons_of_mem _ h3
          · right; exact h3

theorem storeGet_mem (st : Store) (k : String) (r : JobRec)
    (h : storeGet st k = some r) : ∃ k1, (k1, r) ∈ st := by
  unfold storeGet at h
  cases hf : st.find? (fun p => p.1 == k) with
  | none => rw [hf] at h; simp at h
  | some p =>
      rw [hf] at h
      simp at h
      exact ⟨p.1, by
        have := List.mem_of_find?_eq_some hf
        rw [← h]
        simpa using this⟩

/-! Claim C2: the finalized flag and the aggregate totals. -/

theorem recNew_inv (nowIso : String) (j : Job) (prev : Option JobRec)
    (hprev : ∀ p, prev = some p → (p.finalized = true ↔ 0 < p.timeEnd)) :
    ∀ v, recNew nowIso j prev = some v → (v.finalized = true ↔ 0 < v.timeEnd) := by
  intro v hv
  cases prev with
  | none =>
      simp only [recNew, Option.some.injEq] at hv
      rw [← hv]
      exact ⟨of_decide_eq_true, fun h => decide_eq_true h⟩
  | some p =>
      by_cases h1 : 0 < j.timeEnd ∧ (p.finalized = false ∨ p.timeEnd ≠ j.timeEnd)
      · simp only [recNew] at hv
        rw [if_pos h1] at hv
        simp only [Option.some.injEq] at hv
        rw [← hv]
        exact ⟨fun _ => h1.1, fun _ => rfl⟩
      · by_cases h2 : (if 0 < j.timeEnd then j.bench else none).isSome = true ∧
            p.benchmark = none
        · simp only [recNew] at hv
          rw [if_neg h1, if_pos h2] at hv
          simp only [Option.some.injEq] at hv
          rw [← hv]
          exact hprev p rfl
        · simp only [recNew] at hv
          rw [if_neg h1, if_neg h2] at hv
          simp at hv

theorem storeStep_inv (nowIso : String) (st : Store) (j : Job)
    (hinv : ∀ p ∈ st, p.2.finalized = true ↔ 0 < p.2.timeEnd) :
    ∀ p ∈ storeStep nowIso st j, p.2.finalized = true ↔ 0 < p.2.timeEnd := by
  intro p hp
  cases hid : j.id with
  | none =>
      simp only [storeStep, hid] at hp
      exact hinv p hp
  | some jid =>
      simp only [storeStep, hid] at hp
      by_cases hts : j.timeStart ≤ 0
      · rw [if_pos hts] at hp
        exact hinv p hp
      · rw [if_neg hts] at hp
        have hprev : ∀ q, storeGet st jid = some q →
            (q.finalized = true ↔ 0 < q.timeEnd) := by
          intro q hq
          obtain ⟨k1, hk1⟩ := storeGet_mem st jid q hq
          exact hinv (k1, q) hk1
        cases hr : recNew nowIso j (storeGet st jid) with
        | none => rw [hr] at hp; exact hinv p hp
        | some v =>
            rw [hr] at hp
            rcases mem_storeSet st jid v p hp with h2 | h2
            · exact hinv p h2
            · rw [h2]
              exact recNew_inv nowIso j _ hprev v hr

theorem updateLedger_inv (nowIso : String) (jobs : List Job) :
    ∀ st : Store, (∀ p ∈ st, p.2.finalized = true ↔ 0 < p.2.timeEnd) →
      ∀ p ∈ updateLedger nowIso st jobs,
        p.2.finalized = true ↔ 0 < p.2.timeEnd := by
  induction jobs with
  | nil => intro st h; exact h
  | cons j rest ih =>
      intro st h
      exact ih (storeStep nowIso st j) (storeStep_inv nowIso st j h)

theorem foldlSeconds (st : Store)
    (h : ∀ p ∈ st, p.2.finalized = true ↔ 0 < p.2.timeEnd) :
    ∀ a : Int,
      st.foldl (fun acc p => if 0 < p.2.timeEnd then acc + p.2.runtime_seconds else acc) a =
      st.foldl (fun acc p => if p.2.finalized = true then acc + p.2.runtime_seconds else acc) a := by
  induction st with
  | nil => intro a; rfl
  | cons p rest ih =>
      intro a
      have hp := h p (List.mem_cons_self p rest)
      have hrest := fun q hq => h q (List.mem_cons_of_mem p hq)
      simp only [List.foldl_cons]
      by_cases hc : 0 < p.2.timeEnd
      · rw [if_pos hc, if_pos (hp.mpr hc)]
        exact ih hrest _
      · rw [if_neg hc, if_neg (fun hf => hc (hp.mp hf))]
        exact ih hrest _

theorem foldlUsd (st : Store)
    (h : ∀ p ∈ st, p.2.finalized = true ↔ 0 < p.2.timeEnd) :
    ∀ a : ℚ,
      st.foldl (fun acc p => if 0 < p.2.timeEnd then acc + p.2.earned_usd else acc) a =
      st.foldl (fun acc p => if p.2.finalized = true then acc + p.2.earned_usd else acc) a := by
  induction st with
  | nil => intro a; rfl
  | cons p rest ih =>
      intro a
      have hp := h p (List.mem_cons_self p rest)
      have hrest := fun q hq => h q (List.mem_cons_of_mem p hq)
      simp only [List.foldl_cons]
      by_cases hc : 0 < p.2.timeEnd
      · rw [if_pos hc, if_pos (hp.mpr hc)]
        exact ih hrest _
      · rw [if_neg hc, if_neg (fun hf => hc (hp.mp hf))]
        exact ih hrest _

/-- C2 counterexample: a fetched job with start 200 and end 100 is stored
with the finalized flag set even though its end precedes its start, so the
flag is not equivalent to the claimed conjunction. -/
theorem ledger_finalized_counterexample :
    ¬ (∀ p ∈ updateLedger "t0" [] [⟨some "1", 1, 200, 100, 0, .null, none⟩],
        p.2.finalized = true ↔ (0 < p.2.timeEnd ∧ p.2.timeStart ≤ p.2.timeEnd)) := by
  decide

/-- C2 amended: for every ledger reachable by the updater from a ledger
satisfying it, each record has its finalized flag set exactly when its
stored end time is positive (the end at least start consistency is not part
of the flag), and the aggregate second and earning totals are the sums over
exactly the finalized records, every non-finalized record contributing
zero. -/
theorem ledger_finalized_invariant (nowIso : String) (st : Store)
    (jobs : List Job)
    (hinv : ∀ p ∈ st, p.2.finalized = true ↔ 0 < p.2.timeEnd) :
    (∀ p ∈ updateLedger nowIso st jobs,
      p.2.finalized = true ↔ 0 < p.2.timeEnd) ∧
    sumSeconds (updateLedger nowIso st jobs) =
      sumSecondsFin (updateLedger nowIso st jobs) ∧
    sumUsd (updateLedger nowIso st jobs) =
      sumUsdFin (updateLedger nowIso st jobs) := by
  have hmain := updateLedger_inv nowIso jobs st hinv
  exact ⟨hmain, foldlSeconds _ hmain 0, foldlUsd _ hmain 0⟩

/-- C2 witness: the amended theorem evaluated at the empty ledger and one
ordinary finalized job. -/
theorem ledger_finalized_invariant_witness :
    (∀ p ∈ updateLedger "t0" [] [⟨some "1", 1, 100, 200, 0, .null, none⟩],
      p.2.finalized = true ↔ 0 < p.2.timeEnd) ∧
    sumSeconds (updateLedger "t0" [] [⟨some "1", 1, 100, 200, 0, .null, none⟩]) =
      sumSecondsFin (updateLedger "t0" [] [⟨some "1", 1, 100, 200, 0, .null, none⟩]) ∧
    sumUsd (updateLedger "t0" [] [⟨some "1", 1, 100, 200, 0, .null, none⟩]) =
      sumUsdFin (updateLedger "t0" [] [⟨some "1", 1, 100, 200, 0, .null, none⟩]) :=
  ledger_finalized_invariant "t0" [] [⟨some "1", 1, 100, 200, 0, .null, none⟩]
    (by simp)

/-! Claim C3: idempotence of the ledger update. -/

/-- The store entry at a jid after a mutation decision: the written record
when one was decided, else the previous entry. -/
def applyRec (r prev : Option JobRec) : Option JobRec :=
  match r with
  | some v => some v
  | none => prev

theorem storeStep_id_none (nowIso : String) (st : Store) (j : Job)
    (hid : j.id = none) : storeStep nowIso st j = st := by
  simp [storeStep, hid]

theorem storeStep_noop (nowIso : String) (st : Store) (j : Job) (jid : String)
    (hid : j.id = some jid)
    (hr : recNew nowIso j (storeGet st jid) = none) :
    storeStep nowIso st j = st := by
  simp only [storeStep, hid]
  by_cases hts : j.timeStart ≤ 0
  · rw [if_pos hts]
  · rw [if_neg hts, hr]

theorem storeStep_get_self (nowIso : String) (st : Store) (j : Job) (jid : String)
    (hid : j.id = some jid) (hts : ¬ j.timeStart ≤ 0) :
    storeGet (storeStep nowIso st j) jid =
      applyRec (recNew nowIso j (storeGet st jid)) (storeGet st jid) := by
  simp only [storeStep, hid, hts, if_false]
  cases hr : recNew nowIso j (storeGet st jid) with
  | none => simp [applyRec]
  | some v => simp [applyRec, storeGet_set_self]

theorem storeStep_get_ne (nowIso : String) (st : Store) (j : Job) (k : String)
    (h : ∀ jid, j.id = some jid → jid ≠ k) :
    storeGet (storeStep nowIso st j) k = storeGet st k := by
  cases hid : j.id with
  | none => simp [storeStep, hid]
  | some jid =>
      simp only [storeStep, hid]
      by_cases hts : j.timeStart ≤ 0
      · rw [if_pos hts]
      · rw [if_neg hts]
        cases hr : recNew nowIso j (storeGet st jid) with
        | none => rfl
        | some v => exact storeGet_set_ne st jid k v (fun hh => h jid hid hh.symm)

theorem updateLedger_get_ne (nowIso : String) (jobs : List Job) :
    ∀ (st : Store) (k : String),
      (∀ j ∈ jobs, ∀ jid, j.id = some jid → jid ≠ k) →
      storeGet (updateLedger nowIso st jobs) k = storeGet st k := by
  induction jobs with
  | nil => intro st k _; rfl
  | cons j rest ih =>
      intro st k h
      have h1 : storeGet (updateLedger nowIso (storeStep nowIso st j) rest) k =
          storeGet (storeStep nowIso st j) k :=
        ih _ k (fun j2 hj2 => h j2 (List.mem_cons_of_mem j hj2))
      have h2 : storeGet (storeStep nowIso st j) k = storeGet st k :=
        storeStep_get_ne nowIso st j k (h j (List.mem_cons_self j rest))
      exact h1.trans h2

/-- Core replay fact: the mutation the job loop would decide for a job,
when the entry at its jid is the one its own previous processing produced,
is always the no-write decision. -/
theorem recNew_settled (n1 n2 : String) (j : Job) (prev : Option JobRec) :
    recNew n2 j (applyRec (recNew n1 j prev) prev) = none := by
  cases prev with
  | none =>
      by_cases hte : 0 < j.timeEnd
      · cases hb : j.bench with
        | none => simp [recNew, applyRec, hte, hb]
        | some b => simp [recNew, applyRec, hte, hb]
      · simp [recNew, applyRec, hte]
  | some p =>
      by_cases h1 : 0 < j.timeEnd ∧ (p.finalized = false ∨ p.timeEnd ≠ j.timeEnd)
      · have hte := h1.1
        cases hb : j.bench with
        | none => simp [recNew, applyRec, h1, hte, hb]
        | some b => simp [recNew, applyRec, h1, hte, hb]
      · by_cases h2 : (if 0 < j.timeEnd then j.bench else none).isSome = true ∧
            p.benchmark = none
        · have hte : 0 < j.timeEnd := by
            by_contra hte
            simp [hte] at h2
          obtain ⟨b, hb⟩ : ∃ b, j.bench = some b := by
            have hbs := h2.1
            rw [if_pos hte] at hbs
            exact Option.isSome_iff_exists.mp hbs
          have hX : ¬ (p.finalized = false ∨ p.timeEnd ≠ j.timeEnd) :=
            fun hx => h1 ⟨hte, hx⟩
          simp [recNew, applyRec, hte, hb, hX, h2.2]
        · simp [recNew, applyRec, h1, h2]

theorem updateLedger_twice (n1 n2 : String) (jobs : List Job) :
    ∀ st : Store, (jobs.filterMap Job.id).Nodup →
      updateLedger n2 (updateLedger n1 st jobs) jobs =
        updateLedger n1 st jobs := by
  induction jobs with
  | nil => intro st _; rfl
  | cons j rest ih =>
      intro st hnd
      cases hid : j.id with
      | none =>
          have hnd2 : (rest.filterMap Job.id).Nodup := by
            simpa [List.filterMap_cons, hid] using hnd
          show updateLedger n2
              (storeStep n2 (updateLedger n1 (storeStep n1 st j) rest) j) rest =
            updateLedger n1 (storeStep n1 st j) rest
          rw [storeStep_id_none n1 st j hid,
            storeStep_id_none n2 (updateLedger n1 st rest) j hid]
          exact ih st hnd2
      | some jid =>
          have hsplit : (List.filterMap Job.id (j :: rest)) =
              jid :: rest.filterMap Job.id := by
            simp [List.filterMap_cons, hid]
          rw [hsplit] at hnd
          have hnd2 : (rest.filterMap Job.id).Nodup := hnd.of_cons
          have hnotin : ∀ j2 ∈ rest, ∀ k2, j2.id = some k2 → k2 ≠ jid := by
            intro j2 hj2 k2 hk2 heq
            have : jid ∈ rest.filterMap Job.id :=
              List.mem_filterMap.mpr ⟨j2, hj2, heq ▸ hk2⟩
            exact (List.nodup_cons.mp hnd).1 this
          show updateLedger n2
              (storeStep n2 (updateLedger n1 (storeStep n1 st j) rest) j) rest =
            updateLedger n1 (storeStep n1 st j) rest
          have hstep : storeStep n2 (updateLedger n1 (storeStep n1 st j) rest) j =
              updateLedger n1 (storeStep n1 st j) rest := by
            by_cases hts : j.timeStart ≤ 0
            · simp [storeStep, hid, hts]
            · have hget : storeGet (updateLedger n1 (storeStep n1 st j) rest) jid =
                  storeGet (storeStep n1 st j) jid :=
                updateLedger_get_ne n1 rest _ jid hnotin
              have hget2 : storeGet (storeStep n1 st j) jid =
                  applyRec (recNew n1 j (storeGet st jid)) (storeGet st jid) :=
                storeStep_get_self n1 st j jid hid hts
              have hrec : recNew n2 j
                  (storeGet (updateLedger n1 (storeStep n1 st j) rest) jid) = none := by
                rw [hget, hget2]
                exact recNew_settled n1 n2 j (storeGet st jid)
              exact storeStep_noop n2 _ j jid hid hrec
          rw [hstep]
          exact ih (storeStep n1 st j) hnd2

/-- C3 counterexample: a fetched list carrying the same job id twice with
conflicting end times makes the second run rewrite the last-seen stamp, so
the ledger contents after two runs differ from the contents after one. -/
theorem ledger_idempotent_counterexample :
    updateLedger "t2" (updateLedger "t1" []
        [⟨some "1", 1, 10, 100, 0, .null, none⟩,
         ⟨some "1", 1, 20, 200, 0, .null, none⟩])
      [⟨some "1", 1, 10, 100, 0, .null, none⟩,
       ⟨some "1", 1, 20, 200, 0, .null, none⟩] ≠
    updateLedger "t1" []
      [⟨some "1", 1, 10, 100, 0, .null, none⟩,
       ⟨some "1", 1, 20, 200, 0, .null, none⟩] := by
  intro h
  have h2 := congrArg (List.map (fun p => p.2.last_seen)) h
  exact absurd h2 (by decide)

/-- C3 amended: for every ledger state and every fetched job list in which
no two jobs share a job id, running the ledger update twice in succession
on the identical list yields the same ledger contents and the same
usd_total, seconds_total and jobs_tracked aggregates as running it once; no
job is double-counted. -/
theorem ledger_idempotent (n1 n2 : String) (st : Store) (jobs : List Job)
    (hnd : (jobs.filterMap Job.id).Nodup) :
    updateLedger n2 (updateLedger n1 st jobs) jobs = updateLedger n1 st jobs ∧
    round6 (sumUsd (updateLedger n2 (updateLedger n1 st jobs) jobs)) =
      round6 (sumUsd (updateLedger n1 st jobs)) ∧
    sumSeconds (updateLedger n2 (updateLedger n1 st jobs) jobs) =
      sumSeconds (updateLedger n1 st jobs) ∧
    (updateLedger n2 (updateLedger n1 st jobs) jobs).length =
      (updateLedger n1 st jobs).length := by
  have h := updateLedger_twice n1 n2 jobs st hnd
  exact ⟨h, by rw [h], by rw [h], by rw [h]⟩

/-- C3 witness: the amended theorem evaluated at the empty ledger and a
one-job list. -/
theorem ledger_idempotent_witness :
    (([⟨some "1", 1, 10, 100, 0, .null, none⟩] : List Job).filterMap
        Job.id).Nodup ∧
    updateLedger "t2" (updateLedger "t1" []
        [⟨some "1", 1, 10, 100, 0, .null, none⟩])
      [⟨some "1", 1, 10, 100, 0, .null, none⟩] =
      updateLedger "t1" [] [⟨some "1", 1, 10, 100, 0, .null, none⟩] :=
  ⟨by decide,
   (ledger_idempotent "t1" "t2" [] [⟨some "1", 1, 10, 100, 0, .null, none⟩]
     (by decide)).1⟩

/-! Claim C9: the queue-position decoder. -/

theorem all32_of_fit (raw : List Nat) (i L : Nat)
    (h : i + 4 + 32 * L ≤ raw.length) :
    (pubkeysAt raw i L).all (fun pk => pk.length == 32) = true := by
  rw [List.all_eq_true]
  intro pk hpk
  rw [pubkeysAt, List.mem_map] at hpk
  obtain ⟨j, hj, hpk⟩ := hpk
  rw [List.mem_range] at hj
  rw [← hpk]
  simp only [beq_iff_eq, List.length_take, List.length_drop]
  exact Nat.min_eq_left (by omega)

theorem candAt_eq (raw : List Nat) (i : Nat) :
    codeCandAt raw i = specCandAt raw i := by
  by_cases h : 1 ≤ leU32 raw i ∧ i + 4 + 32 * leU32 raw i ≤ raw.length
  · have hmul : leU32 raw i * 32 ≤ raw.length := by omega
    have hdiv : leU32 raw i ≤ raw.length / 32 :=
      (Nat.le_div_iff_mul_le (by norm_num)).mpr hmul
    have hmax : leU32 raw i ≤ raw.length / 32 + 1 := by omega
    have hcode : 1 ≤ leU32 raw i ∧ leU32 raw i ≤ raw.length / 32 + 1 ∧
        i + 4 + 32 * leU32 raw i ≤ raw.length := ⟨h.1, hmax, h.2⟩
    simp only [codeCandAt, specCandAt, if_pos hcode, if_pos h,
      all32_of_fit raw i (leU32 raw i) h.2, if_true]
  · have hcode : ¬ (1 ≤ leU32 raw i ∧ leU32 raw i ≤ raw.length / 32 + 1 ∧
        i + 4 + 32 * leU32 raw i ≤ raw.length) := fun hc => h ⟨hc.1, hc.2.2⟩
    simp only [codeCandAt, specCandAt, if_neg hcode, if_neg h]

theorem specCandAt_none_of_late (raw : List Nat) (i : Nat)
    (h : raw.length < i + 36) : specCandAt raw i = none := by
  have hc : ¬ (1 ≤ leU32 raw i ∧ i + 4 + 32 * leU32 raw i ≤ raw.length) := by
    rintro ⟨h1, h2⟩
    omega
  simp only [specCandAt, if_neg hc]

theorem extract_eq_spec (raw : List Nat) :
    _extract_pubkey_vec_candidates raw = pubkeyVecCandidatesSpec raw := by
  by_cases hemp : raw.isEmpty = true
  · rw [List.isEmpty_iff.mp hemp]
    rfl
  · have hlen : 1 ≤ raw.length := by
      have := (Bool.not_eq_true raw.isEmpty).mp hemp
      cases raw with
      | nil => simp at this
      | cons a l => simp
    simp only [_extract_pubkey_vec_candidates, hemp, Bool.false_eq_true, if_false,
      pubkeyVecCandidatesSpec]
    rw [List.filterMap_congr (fun i _ => candAt_eq raw i)]
    rcases Nat.lt_or_ge raw.length 4 with h4 | h4
    · have hm : max 1 (raw.length - 4) = 1 := by omega
      have hr : raw.length - 3 = 0 := by omega
      rw [hm, hr]
      simp [List.range_succ, List.range_zero,
        specCandAt_none_of_late raw 0 (by omega)]
    · rcases Nat.lt_or_ge raw.length 5 with h5 | h5
      · have hm : max 1 (raw.length - 4) = raw.length - 3 := by omega
        rw [hm]
      · have hm : max 1 (raw.length - 4) = raw.length - 4 := by omega
        have hr : raw.length - 3 = (raw.length - 4) + 1 := by omega
        rw [hm, hr, List.range_succ, List.filterMap_append]
        simp [specCandAt_none_of_late raw (raw.length - 4) (by omega)]

/-- C9: the queue-position decoder agrees everywhere with its claimed
description: collect every candidate interpretation of a 4-byte
little-endian length prefix followed by that many 32-byte entries fitting
in the buffer, prefer longer candidate lists, base58-encode the entries,
return the 1-based position and the total count from the first candidate
containing the target, and return none (the function is total, so no
exception is possible) when no candidate contains the target or no
candidate exists. -/
theorem queue_position_spec_eq (raw : List Nat) (target : String) :
    _get_queue_position_from_market_raw raw target =
      queuePositionSpec raw target := by
  unfold _get_queue_position_from_market_raw queuePositionSpec
  rw [extract_eq_spec]
  by_cases h : (pubkeyVecCandidatesSpec raw).isEmpty = true
  · rw [List.isEmpty_iff.mp h]
    rfl
  · simp only [h, Bool.false_eq_true, if_false]

end NosanaNode
